import Mathlib

/-!
Verification development for the CDSirius orchestration pipeline
(`node.py`, `sirius.py`): a shallow embedding of the feature normalizer,
session login, job polling loop, result harvester and table finalizer,
with theorems settling the specification claims.

Python floats are modelled as exact rationals (ℚ); Python strings as
Lean `String`; a Python value that may be `None`, a DataFrame or a tuple
is modelled by an explicit sum type.
-/

namespace CDSirius

/-! Adduct normalization (`node.py`, `CDSirius._normalize_adduct`) -/

/-- The proton mass constant `1.00727663` used by `_normalize_adduct`. -/
def protonMass : ℚ := 100727663 / 100000000

/-- The blacklist `invalid_adducts` of unsupported adduct tokens. -/
def invalid_adducts : List String :=
  ["2M", "+2", "+3", "-2", "-3", "MeOH", "ACN", "-e", "+e"]

/-- Python's `d in adduct` substring test: the needle occurs as a
contiguous run of characters of the haystack. -/
def strContains (hay needle : String) : Bool :=
  hay.toList.tails.any (fun t => needle.toList.isPrefixOf t)

/-- Python check `any(d in adduct for d in invalid_adducts)`. -/
def containsInvalidToken (adduct : String) : Bool :=
  invalid_adducts.any (fun d => strContains adduct d)

/-- Python's `adduct[:-1]`: the string with its last character removed
(the empty string stays empty). -/
def strDropLast (s : String) : String :=
  String.mk s.toList.dropLast

/-- The function `CDSirius._normalize_adduct(mz, mw, z, adduct)` from `node.py`:
if the adduct contains a blacklisted token, replace mass/charge/adduct by
the protonated or deprotonated form according to the sign of the charge;
in every case return `adduct[:-1]` as the final adduct string. -/
def normalize_adduct (mz mw : ℚ) (z : ℤ) (adduct : String) : ℚ × ℤ × String :=
  if containsInvalidToken adduct then
    if z < 0 then
      (mw - protonMass, -1, strDropLast "[M-H]-1")
    else
      (mw + protonMass, 1, strDropLast "[M+H]+1")
  else
    (mz, z, strDropLast adduct)

/-! Peak-list construction (`node.py`, `CDSirius._load_features`) -/

/-- One `{'mz': ..., 'intensity': ...}` peak record. -/
structure Peak where
  mz : ℚ
  intensity : ℚ
  deriving DecidableEq, Repr

/-- The peak-list construction in `_load_features`:
`peaks = [{'mz': d[0], 'intensity': d[1]} for d in zip(masses, intensities)]`.
Python's `zip` pairs positionally and stops at the shorter iterable. -/
def mkPeaks (masses intensities : List ℚ) : List Peak :=
  (masses.zip intensities).map (fun d => { mz := d.1, intensity := d.2 })

/-! Elemental-constraint parsing (`node.py`, `CDSirius._load_params`)

`re.findall("([A-Z][a-z]*)(\d*)?", params["ElementalConstraints"])` scans the
input left to right; at each position a match starts at an uppercase letter,
greedily consumes the following lowercase letters (the element symbol) and
then the following digits (the count). Characters that start no match are
skipped. -/

/-- One regex-scan step plus the recursive scan of the remaining input;
returns the list of `(element, count)` capture pairs of `re.findall`.
The fuel argument only bounds the recursion; each step consumes at least
one character, so `findElems` supplies the input length as fuel. -/
def findElemsAux : Nat → List Char → List (List Char × List Char)
  | 0, _ => []
  | _, [] => []
  | fuel + 1, c :: cs =>
    if c.isUpper then
      let lows := cs.takeWhile Char.isLower
      let rest1 := cs.dropWhile Char.isLower
      let digs := rest1.takeWhile Char.isDigit
      let rest2 := rest1.dropWhile Char.isDigit
      (c :: lows, digs) :: findElemsAux fuel rest2
    else
      findElemsAux fuel cs

/-- The full left-to-right regex scan of `re.findall`. -/
def findElems (l : List Char) : List (List Char × List Char) :=
  findElemsAux l.length l

/-- The join `"".join(f"{e}[{c}]" for e, c in constraints)`: the enforced formula
constraint string built in `_load_params`. -/
def elementalConstraints (s : String) : String :=
  String.join ((findElems s.toList).map
    (fun p => String.mk p.1 ++ "[" ++ String.mk p.2 ++ "]"))

/-! Session login (`sirius.py`, `Sirius.login` and `Sirius.__enter__`)

`login` first asks the service whether an account is already connected;
then checks the configured credentials; then attempts the remote login,
which either succeeds or raises. The result of the whole method is
modelled as `Except` (an exception escaping) of `Bool` (the returned
value), together with the log lines emitted (`(level, message)` pairs). -/

/-- Outcome of one `Sirius.login()` call. -/
structure LoginOut where
  result : Except String Bool
  logs : List (String × String)
  deriving Repr

/-- Model of `Sirius.login` from `sirius.py`, parameterized by the service's
`account().is_logged_in()` answer and by whether the remote
`account().login(...)` call raises. -/
def login (isLoggedIn : Bool) (username password : String)
    (loginRaises : Bool) : LoginOut :=
  let l0 := [("TEMP", "Connecting to SIRIUS user account...")]
  if isLoggedIn then
    { result := .ok true
      logs := l0 ++ [("VERBOSE", "SIRIUS account already connected.")] }
  else if username = "" ∨ password = "" then
    { result := .ok false
      logs := l0 ++ [("WARNING", "SIRIUS account credentials not specified!")] }
  else if loginRaises then
    { result := .error "login raised"
      logs := l0 ++ [("ERROR", "Unable to login to SIRIUS account!")] }
  else
    { result := .ok true
      logs := l0 ++ [("VERBOSE", "SIRIUS account connected.")] }

/-- The login step of `Sirius.__enter__`:
`if not self.login(): raise RuntimeError("Unable to login to SIRIUS account!")`.
Session acquisition succeeds (`Except.ok`) only when `login` returns `True`;
a `False` return is escalated to a `RuntimeError`. -/
def enterLogin (isLoggedIn : Bool) (username password : String)
    (loginRaises : Bool) : Except String Unit :=
  match (login isLoggedIn username password loginRaises).result with
  | .error e => .error e
  | .ok true => .ok ()
  | .ok false => .error "Unable to login to SIRIUS account!"

/-! Job polling loop (`sirius.py`, `Sirius.start_job`, lines 325-353)

Each iteration of `while True` issues three separate remote
`self._api.jobs().get_job(...)` queries — one for `progress.state`, one for
`progress.current_progress`, one for `progress.max_progress` — and only then
tests the state against `'DONE'`, `'CANCELED'` and `'FAILED'`. The job's
reported state over the successive loop iterations is given as a list of
strings; an exhausted list models a job that never reaches a terminal state
(the loop would block forever), returned as `none`. -/

/-- One remote call issued by the polling loop, in issue order. -/
inductive RemoteCall where
  | stateQuery (state : String)
  | progressQuery
  | maxProgressQuery
  deriving DecidableEq, Repr

/-- The polling loop of `Sirius.start_job`: returns the boolean handed back
to the caller (`none` when the state trace runs out before a terminal state)
together with the full list of remote `get_job` calls issued. -/
def startJobPoll : List String → Option Bool × List RemoteCall
  | [] => (none, [])
  | s :: rest =>
    let iter := [RemoteCall.stateQuery s, RemoteCall.progressQuery,
                 RemoteCall.maxProgressQuery]
    if s = "DONE" then (some true, iter)
    else if s = "CANCELED" then (some false, iter)
    else if s = "FAILED" then (some false, iter)
    else
      let r := startJobPoll rest
      (r.1, iter ++ r.2)

/-- A job state on which the polling loop stops. -/
def isTerminalState (s : String) : Bool :=
  s = "DONE" ∨ s = "CANCELED" ∨ s = "FAILED"

/-! Rank capping (`sirius.py`, `Sirius._retrieve_structures` lines 672-674
and `Sirius._retrieve_denovo` lines 726-728)

`candidates_df.drop(candidates_df[candidates_df['rank'] > max_rank].index,
inplace=True)` removes exactly the rows whose `rank` column exceeds
`max_rank` and keeps the remaining rows in their original order. A candidate
row is modelled as its integer rank paired with the rest of its payload. -/

/-- The rank cap applied to CSI:FingerID structure candidates, with
`max_rank = config.structure_db_search_candidates`. -/
def capStructures (maxRank : ℤ) (rows : List (ℤ × α)) : List (ℤ × α) :=
  rows.filter (fun r => !(decide (r.1 > maxRank)))

/-- The rank cap applied to MSNovelist de-novo structure candidates, with
`max_rank = config.ms_novelist_candidates`. -/
def capDenovo (maxRank : ℤ) (rows : List (ℤ × α)) : List (ℤ × α) :=
  rows.filter (fun r => !(decide (r.1 > maxRank)))

/-! Compound-class tree IDs (`sirius.py`, `Sirius.retrieve_results` and
`Sirius._retrieve_classes`)

`retrieve_results` initializes `class_tree_id = [1]` and passes this
one-element list (a mutable cell) into `_retrieve_classes` for every
feature. For each formula candidate of a feature whose `compoundClasses`
is not `None`, `_retrieve_classes` builds one lineage table, stamps every
row of it with `TreeID = tree_id[0]`, and increments the cell. A lineage's
rows are modelled abstractly; a candidate's `compoundClasses` field is an
`Option`, `none` when the service reported no classification. -/

/-- Model of `Sirius._retrieve_classes` over one feature's formula candidates:
produces the list of lineage tables (each row stamped with its `TreeID`)
and the updated counter cell. -/
def retrieveClasses : List (Option (List α)) → Nat →
    List (List (Nat × α)) × Nat
  | [], t => ([], t)
  | none :: rest, t => retrieveClasses rest t
  | some lineage :: rest, t =>
    let stamped := lineage.map (fun row => (t, row))
    let r := retrieveClasses rest (t + 1)
    (stamped :: r.1, r.2)

/-- The harvest loop of `Sirius.retrieve_results` restricted to the class
tables: `classes += tables` for each feature, threading the shared
`class_tree_id` cell through the whole run. -/
def harvestClasses : List (List (Option (List α))) → Nat →
    List (List (Nat × α)) × Nat
  | [], t => ([], t)
  | f :: fs, t =>
    let r1 := retrieveClasses f t
    let r2 := harvestClasses fs r1.2
    (r1.1 ++ r2.1, r2.2)

/-! Formula harvest and finalization (`sirius.py`,
`Sirius._retrieve_formulas`, `Sirius.retrieve_results`,
`Sirius._finalize_formulas`)

`_retrieve_formulas` returns either the candidates DataFrame or — on the
empty-candidates path — the two-element tuple `None, None` (line 546).
`retrieve_results` appends the returned value to the `formulas` buffer
whenever it `is not None`; a tuple is not `None`, so it is appended.
`_finalize_formulas` returns `None` on an empty buffer and otherwise calls
`pandas.concat`, which raises a `TypeError` if any buffer element is not a
DataFrame. The relevant Python values are modelled by an explicit sum. -/

/-- A Python value flowing through the formulas buffer: `None`, a
DataFrame of rows, or the tuple `(None, None)`. -/
inductive PyVal (α : Type) where
  | pyNone
  | df (rows : List α)
  | nonePair
  deriving DecidableEq, Repr

/-- Model of `Sirius._retrieve_formulas` for one feature, reduced to the control
flow the buffer sees: with no candidates it executes `return None, None`;
otherwise it stamps the external ID onto every candidate row and returns
the DataFrame. -/
def retrieveFormulas (extId : ℤ) (candidates : List α) : PyVal (ℤ × α) :=
  if candidates.isEmpty then .nonePair
  else .df (candidates.map (fun c => (extId, c)))

/-- The formulas part of the harvest loop in `Sirius.retrieve_results`:
`if table is not None: formulas.append(table)` over the features (each
given as external ID and formula-candidate list). -/
def harvestFormulas : List (ℤ × List α) → List (PyVal (ℤ × α))
  | [] => []
  | f :: fs =>
    match retrieveFormulas f.1 f.2 with
    | PyVal.pyNone => harvestFormulas fs
    | table => table :: harvestFormulas fs

/-- Model of `pandas.concat` over the buffer: succeeds with the concatenated rows
when every element is a DataFrame, raises a `TypeError` otherwise. -/
def pandasConcat : List (PyVal β) → Except String (List β)
  | [] => .error "No objects to concatenate"
  | [PyVal.df rows] => .ok rows
  | PyVal.df rows :: rest =>
    match pandasConcat rest with
    | .ok more => .ok (rows ++ more)
    | .error e => .error e
  | _ => .error "cannot concatenate object that is not a DataFrame"

/-- Model of `Sirius._finalize_formulas`: `None` for an empty buffer, otherwise the
`pandas.concat` of the buffered tables (which raises on a non-DataFrame
element such as the `(None, None)` tuple). -/
def finalizeFormulas (formulas : List (PyVal β)) :
    Except String (Option (List β)) :=
  if formulas.isEmpty then .ok none
  else
    match pandasConcat formulas with
    | .ok rows => .ok (some rows)
    | .error e => .error e

/-- Whether an `Except` computation finished without raising. -/
def exceptIsOk : Except ε β → Bool
  | .ok _ => true
  | .error _ => false

/-! Theorems settling the claims. -/

/-- C1 counterexample: on the spec's own example (charge `-1`, adduct
`"2M-H-1"`), `_normalize_adduct` returns mass `mw - 1.00727663` and charge
`-1` as claimed, but the returned adduct is `"[M-H]-"`, not `"[M-H]-1"`:
the unconditional `adduct[:-1]` strip on the return line also applies to
the blacklist replacement branch. -/
theorem normalize_adduct_blacklisted_strips_suffix :
    (normalize_adduct 100 200 (-1) "2M-H-1").2.2 = "[M-H]-" ∧
    ¬ (normalize_adduct 100 200 (-1) "2M-H-1").2.2 = "[M-H]-1" ∧
    (normalize_adduct 100 200 (-1) "2M-H-1").1 = 200 - protonMass ∧
    (normalize_adduct 100 200 (-1) "2M-H-1").2.1 = -1 := by
  refine ⟨by decide, by decide, ?_, by decide⟩
  show (if containsInvalidToken "2M-H-1" = true then _ else _ : ℚ × ℤ × String).1 = _
  rw [if_pos (by decide)]
  norm_num

/-- C1 (amended): for every input adduct containing a blacklisted token,
`_normalize_adduct` returns `(mw - protonMass, -1, "[M-H]-")` when the
input charge is negative and `(mw + protonMass, 1, "[M+H]+")` otherwise;
the adduct is the supported form with its trailing `'1'` stripped by the
final `adduct[:-1]`, so it is always one of `"[M-H]-"`, `"[M+H]+"`. -/
theorem normalize_adduct_blacklisted (mz mw : ℚ) (z : ℤ) (adduct : String)
    (h : containsInvalidToken adduct = true) :
    normalize_adduct mz mw z adduct =
      if z < 0 then (mw - protonMass, -1, "[M-H]-")
      else (mw + protonMass, 1, "[M+H]+") := by
  unfold normalize_adduct
  rw [if_pos h]
  by_cases hz : z < 0
  · rw [if_pos hz, if_pos hz]; rfl
  · rw [if_neg hz, if_neg hz]; rfl

/-- C1 witness: concrete evaluation of the amended statement at charge
`-1`, adduct `"2M"`. -/
theorem normalize_adduct_blacklisted_witness :
    containsInvalidToken "2M" = true ∧
    normalize_adduct 0 200 (-1) "2M" = (200 - protonMass, -1, "[M-H]-") := by
  refine ⟨by decide, ?_⟩
  rw [normalize_adduct_blacklisted 0 200 (-1) "2M" (by decide)]
  rw [if_pos (by decide : (-1 : ℤ) < 0)]

/-- C10: on any adduct containing no blacklisted token, `_normalize_adduct`
is total and returns the input mass and charge unchanged together with the
adduct minus its last character; on the empty adduct it returns the empty
string rather than failing. -/
theorem normalize_adduct_passthrough (mz mw : ℚ) (z : ℤ) (adduct : String)
    (h : containsInvalidToken adduct = false) :
    normalize_adduct mz mw z adduct = (mz, z, strDropLast adduct) ∧
    (normalize_adduct mz mw z "").2.2 = "" := by
  constructor
  · unfold normalize_adduct
    rw [if_neg (by rw [h]; exact Bool.false_ne_true)]
  · rfl

/-- C10 witness: concrete evaluation on the non-blacklisted adduct
`"[M+H]+1"`. -/
theorem normalize_adduct_passthrough_witness :
    normalize_adduct 1 2 1 "[M+H]+1" = (1, 1, strDropLast "[M+H]+1") ∧
    (normalize_adduct 1 2 1 "").2.2 = "" :=
  normalize_adduct_passthrough 1 2 1 "[M+H]+1" (by decide)

/-- C5 counterexample: on a spectrum whose mass array has length 2 and
intensity array length 1, `_load_features` raises nothing: Python's `zip`
silently truncates to the shorter array and a one-peak list is produced. -/
theorem mkPeaks_mismatched_no_error :
    mkPeaks [1, 2] [5] = [{ mz := 1, intensity := 5 }] ∧
    (mkPeaks [1, 2] [5]).length = 1 := by decide

/-- C5 (amended): the peak-list construction never fails on unequal mass
and intensity arrays; it pairs the arrays positionally and truncates to the
shorter length (`zip` semantics). -/
theorem mkPeaks_positional (masses intensities : List ℚ) (i : Nat)
    (h1 : i < masses.length) (h2 : i < intensities.length) :
    (mkPeaks masses intensities).length =
      min masses.length intensities.length ∧
    (mkPeaks masses intensities).get
        ⟨i, by simp [mkPeaks]; omega⟩ =
      { mz := masses.get ⟨i, h1⟩, intensity := intensities.get ⟨i, h2⟩ } := by
  constructor
  · simp [mkPeaks]
  · simp [mkPeaks, List.get_eq_getElem, List.getElem_map, List.getElem_zip]

/-- C5 witness: concrete evaluation on the mismatched arrays `[1, 2]` and
`[5]`. -/
theorem mkPeaks_positional_witness :
    (mkPeaks [1, 2] [5]).length = min 2 1 ∧
    (mkPeaks [1, 2] [5]).get ⟨0, by decide⟩ =
      { mz := 1, intensity := 5 } :=
  mkPeaks_positional [1, 2] [5] 0 (by decide) (by decide)

/-- C9: every `(element, count)` pair produced by the elemental-constraint
scan consists of one uppercase letter followed by lowercase letters and a
digit string, and the enforced-constraint string for `"HCNOP4F40"` is
`"H[]C[]N[]O[]P[4]F[40]"` (empty brackets when no explicit count). -/
theorem elemental_constraints_parse :
    (∀ (l : List Char) (p : List Char × List Char), p ∈ findElems l →
      (∃ u lows, p.1 = u :: lows ∧ u.isUpper = true ∧
        ∀ x ∈ lows, x.isLower = true) ∧
      (∀ x ∈ p.2, x.isDigit = true)) ∧
    elementalConstraints "HCNOP4F40" = "H[]C[]N[]O[]P[4]F[40]" := by
  constructor
  · intro l p hp
    unfold findElems at hp
    generalize l.length = fuel at hp
    induction fuel generalizing l with
    | zero => simp [findElemsAux] at hp
    | succ n ih =>
      cases l with
      | nil => simp [findElemsAux] at hp
      | cons c cs =>
        simp only [findElemsAux] at hp
        split at hp
        · rcases List.mem_cons.mp hp with he | ht
          · subst he
            refine ⟨⟨c, cs.takeWhile Char.isLower, rfl, by assumption, ?_⟩, ?_⟩
            · intro x hx; exact List.mem_takeWhile_imp hx
            · intro x hx; exact List.mem_takeWhile_imp hx
          · exact ih _ ht
        · exact ih _ hp
  · decide

/-- C9 witness: the shape statement instantiated at the token
`("P", "4")` of the concrete input `"HCNOP4F40"`. -/
theorem elemental_constraints_parse_witness :
    ((∃ u lows, (['P'], ['4']).1 = u :: lows ∧ u.isUpper = true ∧
        ∀ x ∈ lows, x.isLower = true) ∧
      (∀ x ∈ (['P'], ['4']).2, x.isDigit = true)) ∧
    elementalConstraints "HCNOP4F40" = "H[]C[]N[]O[]P[4]F[40]" :=
  ⟨elemental_constraints_parse.1 "HCNOP4F40".toList (['P'], ['4']) (by decide),
   elemental_constraints_parse.2⟩

/-- Stepping the polling loop past one non-terminal state: the returned
boolean is unchanged and the iteration's three remote queries are
prepended to the call trace. -/
theorem startJobPoll_cons_nonterminal (x : String) (l : List String)
    (hx : isTerminalState x = false) :
    (startJobPoll (x :: l)).1 = (startJobPoll l).1 ∧
    (startJobPoll (x :: l)).2 =
      [RemoteCall.stateQuery x, RemoteCall.progressQuery,
       RemoteCall.maxProgressQuery] ++ (startJobPoll l).2 := by
  simp only [isTerminalState, decide_eq_false_iff_not, not_or] at hx
  obtain ⟨h1, h2, h3⟩ := hx
  simp [startJobPoll, if_neg h1, if_neg h2, if_neg h3]

/-- C3 counterexample: with no configured username, the service not
already authenticated and a login attempt that would succeed, `login`
warns and returns `False`, and `__enter__` escalates the `False` into a
raised `RuntimeError`: session acquisition does not succeed. -/
theorem missing_credentials_enter_raises :
    (login false "" "hunter2" false).result = Except.ok false ∧
    ("WARNING", "SIRIUS account credentials not specified!") ∈
      (login false "" "hunter2" false).logs ∧
    enterLogin false "" "hunter2" false =
      Except.error "Unable to login to SIRIUS account!" :=
  ⟨rfl, by decide, rfl⟩

/-- C3 (amended): whenever the account is not already authenticated and
either credential is empty, `login` logs a warning and returns `False`
without raising, and session acquisition (`__enter__`) treats that `False`
as a failure, raising `RuntimeError("Unable to login to SIRIUS account!")`. -/
theorem login_missing_credentials (isLoggedIn : Bool)
    (username password : String) (raises : Bool)
    (hauth : isLoggedIn = false)
    (hcred : username = "" ∨ password = "") :
    (login isLoggedIn username password raises).result = Except.ok false ∧
    ("WARNING", "SIRIUS account credentials not specified!") ∈
      (login isLoggedIn username password raises).logs ∧
    enterLogin isLoggedIn username password raises =
      Except.error "Unable to login to SIRIUS account!" := by
  subst hauth
  rw [show login false username password raises =
      { result := .ok false,
        logs := [("TEMP", "Connecting to SIRIUS user account..."),
                 ("WARNING", "SIRIUS account credentials not specified!")] }
    from by simp [login, if_pos hcred]]
  refine ⟨rfl, by simp, ?_⟩
  unfold enterLogin
  rw [show login false username password raises =
      { result := .ok false,
        logs := [("TEMP", "Connecting to SIRIUS user account..."),
                 ("WARNING", "SIRIUS account credentials not specified!")] }
    from by simp [login, if_pos hcred]]

/-- C3 witness: concrete evaluation of the amended statement with an empty
password. -/
theorem login_missing_credentials_witness :
    (login false "user" "" true).result = Except.ok false ∧
    ("WARNING", "SIRIUS account credentials not specified!") ∈
      (login false "user" "" true).logs ∧
    enterLogin false "user" "" true =
      Except.error "Unable to login to SIRIUS account!" :=
  login_missing_credentials false "user" "" true rfl (Or.inr rfl)

/-- C4 counterexample: on the reported state sequence
`[RUNNING, RUNNING, DONE]` the loop does return success after its third
iteration, but it issues nine remote `get_job` queries, not three — three
per iteration — and the final iteration's two progress queries are issued
after the state query that already reported `DONE`. -/
theorem poll_three_states_nine_calls :
    (startJobPoll ["RUNNING", "RUNNING", "DONE"]).1 = some true ∧
    (startJobPoll ["RUNNING", "RUNNING", "DONE"]).2.length = 9 ∧
    ¬ (startJobPoll ["RUNNING", "RUNNING", "DONE"]).2.length = 3 ∧
    (startJobPoll ["RUNNING", "RUNNING", "DONE"]).2.drop 7 =
      [RemoteCall.progressQuery, RemoteCall.maxProgressQuery] := by decide

/-- C4 (amended): if the job reports a non-terminal state for each of the
first `n` iterations and `DONE` on iteration `n + 1`, the loop returns
success after exactly `n + 1` iterations and issues exactly three remote
`get_job` queries per iteration (`3 * (n + 1)` in total); the final
iteration still issues its two progress queries after the state query that
reports `DONE`, and no remote calls are issued after that iteration. -/
theorem startJob_poll_done (pre : List String)
    (h : ∀ s ∈ pre, isTerminalState s = false) :
    (startJobPoll (pre ++ ["DONE"])).1 = some true ∧
    (startJobPoll (pre ++ ["DONE"])).2.length = 3 * (pre.length + 1) ∧
    (startJobPoll (pre ++ ["DONE"])).2.drop (3 * pre.length) =
      [RemoteCall.stateQuery "DONE", RemoteCall.progressQuery,
       RemoteCall.maxProgressQuery] := by
  induction pre with
  | nil => exact ⟨rfl, rfl, rfl⟩
  | cons x xs ih =>
    have hx : isTerminalState x = false := h x (List.mem_cons_self x xs)
    have hxs : ∀ s ∈ xs, isTerminalState s = false :=
      fun s hs => h s (List.mem_cons_of_mem x hs)
    obtain ⟨ih1, ih2, ih3⟩ := ih hxs
    obtain ⟨hs1, hs2⟩ := startJobPoll_cons_nonterminal x (xs ++ ["DONE"]) hx
    refine ⟨by rw [List.cons_append, hs1]; exact ih1, ?_, ?_⟩
    · rw [List.cons_append, hs2]
      simp only [List.length_append, List.length_cons, List.length_nil]
      rw [ih2]
      omega
    · rw [List.cons_append, hs2, List.length_cons]
      have h3 : 3 * (xs.length + 1) = 3 * xs.length + 3 := by ring
      rw [h3]
      show (RemoteCall.stateQuery x :: RemoteCall.progressQuery ::
          RemoteCall.maxProgressQuery ::
          (startJobPoll (xs ++ ["DONE"])).2).drop (3 * xs.length + 3) =
        [RemoteCall.stateQuery "DONE", RemoteCall.progressQuery,
         RemoteCall.maxProgressQuery]
      rw [show 3 * xs.length + 3 = (3 * xs.length + 2) + 1 from rfl,
        List.drop_succ_cons,
        show 3 * xs.length + 2 = (3 * xs.length + 1) + 1 from rfl,
        List.drop_succ_cons, List.drop_succ_cons]
      exact ih3

/-- C4 witness: concrete evaluation of the amended statement on the state
sequence `[RUNNING, RUNNING, DONE]`. -/
theorem startJob_poll_done_witness :
    (startJobPoll (["RUNNING", "RUNNING"] ++ ["DONE"])).1 = some true ∧
    (startJobPoll (["RUNNING", "RUNNING"] ++ ["DONE"])).2.length =
      3 * (["RUNNING", "RUNNING"].length + 1) ∧
    (startJobPoll (["RUNNING", "RUNNING"] ++ ["DONE"])).2.drop
        (3 * ["RUNNING", "RUNNING"].length) =
      [RemoteCall.stateQuery "DONE", RemoteCall.progressQuery,
       RemoteCall.maxProgressQuery] :=
  startJob_poll_done ["RUNNING", "RUNNING"] (by decide)

/-- C6: for every polled state sequence whose first terminal state is `s`,
the loop returns the boolean `true` to its caller exactly when `s` is
`DONE`, and returns the boolean `false` when `s` is `CANCELED` or `FAILED`
(the loop's return type already shows no exception escapes it: the three
terminal branches are plain `return` statements). -/
theorem startJob_poll_terminal (pre : List String) (s : String)
    (rest : List String)
    (hpre : ∀ x ∈ pre, isTerminalState x = false)
    (hs : isTerminalState s = true) :
    ((startJobPoll (pre ++ s :: rest)).1 = some true ↔ s = "DONE") ∧
    ((s = "CANCELED" ∨ s = "FAILED") →
      (startJobPoll (pre ++ s :: rest)).1 = some false) := by
  have key : (startJobPoll (pre ++ s :: rest)).1 =
      some (decide (s = "DONE")) := by
    induction pre with
    | nil =>
      simp only [isTerminalState, decide_eq_true_eq] at hs
      simp only [List.nil_append, startJobPoll]
      by_cases h1 : s = "DONE"
      · rw [if_pos h1, h1]; rfl
      · rcases hs with h | h | h
        · exact absurd h h1
        · rw [if_neg h1, if_pos h, decide_eq_false h1]
        · simp only [isTerminalState, decide_eq_true_eq] at hpre
          rw [if_neg h1]
          by_cases h2 : s = "CANCELED"
          · rw [if_pos h2, decide_eq_false h1]
          · rw [if_neg h2, if_pos h, decide_eq_false h1]
    | cons x xs ih =>
      have hx : isTerminalState x = false := hpre x (List.mem_cons_self x xs)
      have hxs : ∀ y ∈ xs, isTerminalState y = false :=
        fun y hy => hpre y (List.mem_cons_of_mem x hy)
      rw [List.cons_append,
        (startJobPoll_cons_nonterminal x (xs ++ s :: rest) hx).1]
      exact ih hxs
  constructor
  · rw [key]
    constructor
    · intro h
      have := Option.some.inj h
      simpa using this.symm
    · intro h; rw [h]; rfl
  · intro hcf
    rw [key]
    have hne : ¬ s = "DONE" := by
      rcases hcf with h | h <;> rw [h] <;> decide
    rw [decide_eq_false hne]

/-- C6 witness: concrete evaluation with first terminal state `CANCELED`
after two non-terminal polls (and a later `DONE` that is never reached). -/
theorem startJob_poll_terminal_witness :
    ((startJobPoll (["QUEUED", "RUNNING"] ++ "CANCELED" :: ["DONE"])).1 =
        some true ↔ "CANCELED" = "DONE") ∧
    (("CANCELED" = "CANCELED" ∨ "CANCELED" = "FAILED") →
      (startJobPoll (["QUEUED", "RUNNING"] ++ "CANCELED" :: ["DONE"])).1 =
        some false) :=
  startJob_poll_terminal ["QUEUED", "RUNNING"] "CANCELED" ["DONE"]
    (by decide) (by decide)

/-- C7: the rank cap in `_retrieve_structures` and `_retrieve_denovo`
drops exactly the candidate rows whose rank exceeds the configured maximum
and keeps all others in order: both caps equal the filter keeping ranks
`≤ max`, and a row survives either cap iff it was present with rank
`≤ max`. -/
theorem rank_capping {α : Type} (maxRank : ℤ) (rows : List (ℤ × α)) :
    capStructures maxRank rows =
      rows.filter (fun r => decide (r.1 ≤ maxRank)) ∧
    capDenovo maxRank rows =
      rows.filter (fun r => decide (r.1 ≤ maxRank)) ∧
    (∀ r : ℤ × α, r ∈ capStructures maxRank rows ↔
      r ∈ rows ∧ r.1 ≤ maxRank) ∧
    (∀ r : ℤ × α, r ∈ capDenovo maxRank rows ↔
      r ∈ rows ∧ r.1 ≤ maxRank) := by
  have hfun : ∀ r : ℤ × α, (!(decide (r.1 > maxRank))) =
      decide (r.1 ≤ maxRank) := by
    intro r
    by_cases h : r.1 ≤ maxRank
    · rw [decide_eq_true h, decide_eq_false (not_lt.mpr h)]; rfl
    · rw [decide_eq_false h, decide_eq_true (not_le.mp h)]; rfl
  have heq : capStructures maxRank rows =
      rows.filter (fun r => decide (r.1 ≤ maxRank)) := by
    unfold capStructures
    exact List.filter_congr (fun x _ => hfun x)
  have hmem : ∀ r : ℤ × α, r ∈ capStructures maxRank rows ↔
      r ∈ rows ∧ r.1 ≤ maxRank := by
    intro r
    rw [heq, List.mem_filter, decide_eq_true_eq]
  exact ⟨heq, heq, hmem, hmem⟩

/-- C2: failing evaluation — one feature with a formula annotation but an
empty formula-candidate list. `_retrieve_formulas` executes
`return None, None`; the returned tuple `is not None`, so
`retrieve_results` appends it to the formulas buffer, and
`_finalize_formulas` hands the non-DataFrame tuple to `pandas.concat`,
which raises a `TypeError` instead of finalizing the table to `None`. -/
theorem empty_formula_harvest_raises :
    harvestFormulas [((1 : ℤ), ([] : List ℕ))] = [PyVal.nonePair] ∧
    finalizeFormulas (harvestFormulas [((1 : ℤ), ([] : List ℕ))]) =
      Except.error "cannot concatenate object that is not a DataFrame" ∧
    exceptIsOk
      (finalizeFormulas (harvestFormulas [((1 : ℤ), ([] : List ℕ))])) =
      false :=
  ⟨rfl, rfl, rfl⟩

/-- The counter cell leaves `_retrieve_classes` advanced by exactly the
number of lineage tables produced. -/
theorem retrieveClasses_counter {α : Type} (lins : List (Option (List α)))
    (t : Nat) :
    (retrieveClasses lins t).2 = t + (retrieveClasses lins t).1.length := by
  induction lins generalizing t with
  | nil => rfl
  | cons o rest ih =>
    cases o with
    | none => exact ih t
    | some lineage =>
      simp only [retrieveClasses, List.length_cons]
      rw [ih (t + 1)]
      omega

/-- Every row of the `i`-th lineage table produced by `_retrieve_classes`
carries the tree ID `t + i`, where `t` is the incoming counter value. -/
theorem retrieveClasses_stamp {α : Type} (lins : List (Option (List α)))
    (t i : Nat) (h : i < (retrieveClasses lins t).1.length) (p : Nat × α)
    (hp : p ∈ (retrieveClasses lins t).1.get ⟨i, h⟩) : p.1 = t + i := by
  induction lins generalizing t i with
  | nil => simp [retrieveClasses] at h
  | cons o rest ih =>
    cases o with
    | none => exact ih t i h hp
    | some lineage =>
      cases i with
      | zero =>
        simp only [retrieveClasses, List.get] at hp
        obtain ⟨row, _, hrow⟩ := List.mem_map.mp hp
        rw [← hrow]
        rfl
      | succ n =>
        have h' : n < (retrieveClasses rest (t + 1)).1.length := by
          simp only [retrieveClasses, List.length_cons] at h
          omega
        have hp' : p ∈ (retrieveClasses rest (t + 1)).1.get ⟨n, h'⟩ := by
          simpa only [retrieveClasses, List.get] using hp
        have := ih (t + 1) n h' hp'
        omega

/-- Every row of the `i`-th lineage table accumulated across the whole
harvest loop carries the tree ID `t + i`. -/
theorem harvestClasses_stamp {α : Type}
    (fs : List (List (Option (List α)))) (t i : Nat)
    (h : i < (harvestClasses fs t).1.length) (p : Nat × α)
    (hp : p ∈ (harvestClasses fs t).1.get ⟨i, h⟩) : p.1 = t + i := by
  induction fs generalizing t i with
  | nil => simp [harvestClasses] at h
  | cons f rest ih =>
    have hlen : i < (retrieveClasses f t).1.length +
        (harvestClasses rest (retrieveClasses f t).2).1.length := by
      simpa only [harvestClasses, List.length_append] using h
    by_cases hi : i < (retrieveClasses f t).1.length
    · have hget : (harvestClasses (f :: rest) t).1.get ⟨i, h⟩ =
          (retrieveClasses f t).1.get ⟨i, hi⟩ := by
        simp only [harvestClasses, List.get_eq_getElem]
        exact List.getElem_append_left hi
      rw [hget] at hp
      exact retrieveClasses_stamp f t i hi p hp
    · have hge : (retrieveClasses f t).1.length ≤ i := Nat.le_of_not_lt hi
      have h' : i - (retrieveClasses f t).1.length <
          (harvestClasses rest (retrieveClasses f t).2).1.length := by
        omega
      have hget : (harvestClasses (f :: rest) t).1.get ⟨i, h⟩ =
          (harvestClasses rest (retrieveClasses f t).2).1.get
            ⟨i - (retrieveClasses f t).1.length, h'⟩ := by
        simp only [harvestClasses, List.get_eq_getElem]
        exact List.getElem_append_right hge
      rw [hget] at hp
      have := ih (retrieveClasses f t).2 (i - (retrieveClasses f t).1.length)
        h' hp
      rw [retrieveClasses_counter] at this
      omega

/-- C8: with the run's initial counter value `1`, every row of the `i`-th
lineage table (in harvest order, across all features) carries the tree ID
`1 + i`; consequently all rows of one lineage group share one tree ID, the
group tree IDs are strictly increasing in harvest order starting from 1,
and no tree ID is shared by two distinct lineage groups. -/
theorem class_tree_ids {α : Type} (feats : List (List (Option (List α))))
    (i j : Nat)
    (hi : i < (harvestClasses feats 1).1.length)
    (hj : j < (harvestClasses feats 1).1.length)
    (p q : Nat × α)
    (hp : p ∈ (harvestClasses feats 1).1.get ⟨i, hi⟩)
    (hq : q ∈ (harvestClasses feats 1).1.get ⟨j, hj⟩) :
    p.1 = 1 + i ∧
    (i = j → p.1 = q.1) ∧
    (i < j → p.1 < q.1) ∧
    (p.1 = q.1 → i = j) := by
  have h1 := harvestClasses_stamp feats 1 i hi p hp
  have h2 := harvestClasses_stamp feats 1 j hj q hq
  omega

/-- C8 witness: two features, each contributing one three-level class
lineage; the rows of the first group carry tree ID 1 and those of the
second carry tree ID 2. -/
theorem class_tree_ids_witness :
    ((1, "Kingdom") : ℕ × String).1 = 1 + 0 ∧
    ((0 : ℕ) = 1 →
      ((1, "Kingdom") : ℕ × String).1 = ((2, "Kingdom2") : ℕ × String).1) ∧
    ((0 : ℕ) < 1 →
      ((1, "Kingdom") : ℕ × String).1 < ((2, "Kingdom2") : ℕ × String).1) ∧
    (((1, "Kingdom") : ℕ × String).1 = ((2, "Kingdom2") : ℕ × String).1 →
      (0 : ℕ) = 1) :=
  class_tree_ids
    [[some ["Kingdom", "Superclass", "Class"]],
     [some ["Kingdom2", "Superclass2", "Class2"]]]
    0 1 (by decide) (by decide) (1, "Kingdom") (2, "Kingdom2")
    (by decide) (by decide)

end CDSirius
